import Mathlib

/-!
# Trip planner (`src/App.jsx`): data synchronisation and navigation

A shallow embedding of the React application in `src/App.jsx`:

* the JavaScript values the code inspects (truthiness, `||`, `===`, `Number`,
  `+`, `String.prototype.localeCompare`, `Array.prototype.sort`);
* the remote store facade `api`, the hook `useSheetData` and its `load`;
* the views `TripSelection`, `ScheduleTab`, `ExpenseTab`, `TodoTab` with
  their handlers, and the root component `App`.

Asynchronous code is embedded in explicit state passing: a function takes
the outcome of each `await` (the reply to a read, whether a write request
completed) and the answers to each `prompt` as arguments, and returns the
new state together with the requests it issued, in order.
-/

/-! ## JavaScript values -/

/-- Number values: NaN, the two infinities, and the finite doubles, a finite
double being held as the rational number it denotes.  The two zeros are not
told apart (no code below can observe the sign of a zero). -/
inductive JSNumber where
  | nan
  | inf (negative : Bool)
  | fin (q : ℚ)
  deriving DecidableEq

/-- The values a field of a record can hold: the JSON scalars, and
`undefined` for a field that is absent. -/
inductive JSValue where
  | undefined
  | null
  | bool (b : Bool)
  | num (n : JSNumber)
  | str (s : String)
  deriving DecidableEq

/-- ToBoolean: `undefined`, `null`, `false`, `0`, `NaN` and the empty string
are falsy, everything else is truthy. -/
def JSValue.truthy : JSValue → Bool
  | .undefined => false
  | .null => false
  | .bool b => b
  | .num .nan => false
  | .num (.inf _) => true
  | .num (.fin q) => decide (q ≠ 0)
  | .str s => decide (s ≠ "")

/-- The operator `a || b`. -/
def JSValue.or (a b : JSValue) : JSValue :=
  if a.truthy then a else b

/-- The operator `a === b` on scalars: same type and same value, NaN being
different from itself. -/
def JSValue.strictEquals : JSValue → JSValue → Bool
  | .undefined, .undefined => true
  | .null, .null => true
  | .bool a, .bool b => decide (a = b)
  | .num .nan, .num _ => false
  | .num _, .num .nan => false
  | .num a, .num b => decide (a = b)
  | .str a, .str b => decide (a = b)
  | _, _ => false

/-! ### Number arithmetic -/

/-- The rational `2 ^ e` for an integer exponent. -/
def pow2 (e : Int) : ℚ :=
  if 0 ≤ e then (2 : ℚ) ^ e.toNat else 1 / (2 : ℚ) ^ (-e).toNat

/-- Round a positive rational to the double grid, to nearest, ties to even:
the exponent is that of the binade of `q` (53 significant bits), not below
the subnormal exponent `-1074`.  The result can be `2 ^ 1024`, which is an
overflow. -/
def roundPos (q : ℚ) : ℚ :=
  let l : Int := (Nat.log2 q.num.natAbs : Int) - (Nat.log2 q.den : Int)
  let e0 : Int := if q < pow2 l then l - 1 else l
  let e : Int := max (e0 - 52) (-1074)
  let scaled : ℚ := q / pow2 e
  let m : Int := ⌊scaled⌋
  let r : ℚ := scaled - m
  let m1 : Int := if 1 / 2 < r ∨ (r = 1 / 2 ∧ m % 2 = 1) then m + 1 else m
  (m1 : ℚ) * pow2 e

/-- The Number value for a real (here rational) number: the nearest double,
an infinity on overflow. -/
def roundToDouble (q : ℚ) : JSNumber :=
  if q = 0 then .fin 0
  else
    let v := roundPos |q|
    if (2 : ℚ) ^ 1024 ≤ v then .inf (decide (q < 0))
    else .fin (if q < 0 then -v else v)

/-- The operator `a + b` on two numbers. -/
def JSNumber.add : JSNumber → JSNumber → JSNumber
  | .nan, _ => .nan
  | _, .nan => .nan
  | .inf a, .inf b => if a = b then .inf a else .nan
  | .inf a, .fin _ => .inf a
  | .fin _, .inf b => .inf b
  | .fin a, .fin b => roundToDouble (a + b)

/-! ### `Number(string)` -/

/-- White space and line terminators, which `Number` strips from both ends
of a string. -/
def isStrWhiteSpace (c : Char) : Bool :=
  let n := c.toNat
  n = 0x09 || n = 0x0A || n = 0x0B || n = 0x0C || n = 0x0D || n = 0x20 ||
  n = 0xA0 || n = 0x1680 || (0x2000 ≤ n && n ≤ 0x200A) || n = 0x2028 ||
  n = 0x2029 || n = 0x202F || n = 0x205F || n = 0x3000 || n = 0xFEFF

/-- Strip white space from both ends. -/
def trimWhiteSpace (cs : List Char) : List Char :=
  ((cs.dropWhile isStrWhiteSpace).reverse.dropWhile isStrWhiteSpace).reverse

/-- The value of a digit in the given radix (2, 8, 10 or 16), if it is one. -/
def digitValue (radix : Nat) (c : Char) : Option Nat :=
  let n := c.toNat
  let v :=
    if 48 ≤ n ∧ n ≤ 57 then some (n - 48)
    else if 97 ≤ n ∧ n ≤ 102 then some (n - 87)
    else if 65 ≤ n ∧ n ≤ 70 then some (n - 55)
    else none
  match v with
  | some d => if d < radix then some d else none
  | none => none

/-- The value of a digit string read most significant digit first, starting
from the accumulator `acc`; `none` if a character is not a digit. -/
def digitsValueFrom (radix : Nat) (acc : Nat) : List Char → Option Nat
  | [] => some acc
  | c :: cs =>
    match digitValue radix c with
    | some d => digitsValueFrom radix (acc * radix + d) cs
    | none => none

/-- The value of a non-empty digit string. -/
def digitsValue (radix : Nat) (cs : List Char) : Option Nat :=
  if cs = [] then none else digitsValueFrom radix 0 cs

/-- Whether a character is a decimal digit. -/
def isDecimalDigit (c : Char) : Bool :=
  (digitValue 10 c).isSome

/-- The exponent part of a decimal literal: nothing, or `e`/`E`, an
optional sign and at least one digit. -/
def exponentPart : List Char → Option Int
  | [] => some 0
  | c :: cs =>
    if c = 'e' ∨ c = 'E' then
      match cs with
      | '+' :: ds => (digitsValue 10 ds).map fun n => (n : Int)
      | '-' :: ds => (digitsValue 10 ds).map fun n => -(n : Int)
      | ds => (digitsValue 10 ds).map fun n => (n : Int)
    else none

/-- The mathematical value of an unsigned decimal literal: digits, an
optional fraction, an optional exponent, with a digit before or after the
dot. -/
def unsignedDecimalValue (cs : List Char) : Option ℚ :=
  let ip := cs.takeWhile isDecimalDigit
  let rest := cs.dropWhile isDecimalDigit
  let fp := match rest with
    | '.' :: r => r.takeWhile isDecimalDigit
    | _ => []
  let tail := match rest with
    | '.' :: r => r.dropWhile isDecimalDigit
    | _ => rest
  if ip = [] ∧ fp = [] then none
  else
    match digitsValueFrom 10 0 (ip ++ fp), exponentPart tail with
    | some d, some x =>
      let e : Int := x - (fp.length : Int)
      some (if 0 ≤ e then (d : ℚ) * (10 : ℚ) ^ e.toNat else (d : ℚ) / (10 : ℚ) ^ (-e).toNat)
    | _, _ => none

/-- An unsigned decimal literal or `Infinity`, with the sign already read. -/
def unsignedDecimalLiteral (negative : Bool) (cs : List Char) : JSNumber :=
  if cs = "Infinity".data then .inf negative
  else
    match unsignedDecimalValue cs with
    | some q => roundToDouble (if negative then -q else q)
    | none => .nan

/-- StringToNumber: the empty (or blank) string is `0`; a binary, octal or
hexadecimal integer literal, or a signed decimal literal, is its value
rounded to a double; any other text is NaN. -/
def stringToNumber (s : String) : JSNumber :=
  match trimWhiteSpace s.data with
  | [] => .fin 0
  | '0' :: x :: ds =>
    if x = 'b' ∨ x = 'B' then
      match digitsValue 2 ds with
      | some n => roundToDouble n
      | none => .nan
    else if x = 'o' ∨ x = 'O' then
      match digitsValue 8 ds with
      | some n => roundToDouble n
      | none => .nan
    else if x = 'x' ∨ x = 'X' then
      match digitsValue 16 ds with
      | some n => roundToDouble n
      | none => .nan
    else unsignedDecimalLiteral false ('0' :: x :: ds)
  | '+' :: cs => unsignedDecimalLiteral false cs
  | '-' :: cs => unsignedDecimalLiteral true cs
  | cs => unsignedDecimalLiteral false cs

/-- The function `Number(v)` on a scalar. -/
def JSValue.toNumber : JSValue → JSNumber
  | .undefined => .nan
  | .null => .fin 0
  | .bool b => if b then .fin 1 else .fin 0
  | .num n => n
  | .str s => stringToNumber s

/-! ### Strings, collation and `Array.prototype.sort` -/

/-- The two built-ins the embedding leaves to the JavaScript engine: the
collation behind `String.prototype.localeCompare`, and the conversion of a
number to a string. -/
structure Host where
  localeCompare : String → String → Int
  numberToString : JSNumber → String

/-- What a collation guarantees: it compares by sort keys, so it is a total
preorder on strings, antisymmetric in sign, and no string sorts before the
empty string. -/
structure LawfulCollation (lc : String → String → Int) : Prop where
  total : ∀ a b, lc a b ≤ 0 ∨ lc b a ≤ 0
  trans : ∀ a b c, lc a b ≤ 0 → lc b c ≤ 0 → lc a c ≤ 0
  flip : ∀ a b, lc a b < 0 ↔ 0 < lc b a
  emptyFirst : ∀ s, lc "" s ≤ 0

/-- ToString on a scalar. -/
def JSValue.toStr (H : Host) : JSValue → String
  | .undefined => "undefined"
  | .null => "null"
  | .bool b => if b then "true" else "false"
  | .num n => H.numberToString n
  | .str s => s

/-- An exception thrown by the engine. -/
inductive JSError where
  | typeError
  deriving DecidableEq

deriving instance DecidableEq for Except

/-- The call `receiver.localeCompare(argument)`: only a string has the
method, so any other receiver throws a TypeError; the argument is converted
to a string. -/
def localeCompareCall (H : Host) (receiver argument : JSValue) : Except JSError Int :=
  match receiver with
  | .str s => .ok (H.localeCompare s (argument.toStr H))
  | _ => .error .typeError

/-! The language leaves to the engine which pairs `Array.prototype.sort`
compares and in which order it passes them.  The embedding follows V8 (Chrome,
Node): the comparator is always called as `compareFn(later, earlier)`; the
run at the head of the array is counted, and reversed when it descends
strictly; the elements after the run are inserted by bisection.  V8 sorts an
array of fewer than 64 elements exactly so; in a longer array it merges
several such runs, which gives the same array whenever no call throws. -/

/-- How many of the elements that follow `previous` continue the run that
`previous` ends: each element is compared with the one before it,
`compareFn(current, previous)`; a descending run goes on while the result is
negative, an ascending run while it is not. -/
def countRun {α : Type} (compareFn : α → α → Except JSError Int) (descending : Bool)
    (previous : α) : List α → Except JSError Nat
  | [] => .ok 0
  | current :: rest =>
    match compareFn current previous with
    | .error e => .error e
    | .ok order =>
      if (descending ∧ 0 ≤ order) ∨ (¬ descending ∧ order < 0) then .ok 0
      else
        match countRun compareFn descending current rest with
        | .error e => .error e
        | .ok n => .ok (n + 1)

/-- The position at which `pivot` is inserted in the sorted array `sorted`,
found by bisection between `left` and `right`: `compareFn(pivot, sorted[mid])`
negative moves `right` down to `mid`, otherwise `left` goes up to `mid + 1`.
The recursion is on `fuel`, which `right - left` never exceeds. -/
def insertionPoint {α : Type} (compareFn : α → α → Except JSError Int) (pivot : α)
    (sorted : List α) : Nat → Nat → Nat → Except JSError Nat
  | 0, left, _ => .ok left
  | fuel + 1, left, right =>
    if left < right then
      let mid := left + (right - left) / 2
      match sorted[mid]? with
      | none => .ok left
      | some element =>
        match compareFn pivot element with
        | .error e => .error e
        | .ok order =>
          if order < 0 then insertionPoint compareFn pivot sorted fuel left mid
          else insertionPoint compareFn pivot sorted fuel (mid + 1) right
    else .ok left

/-- Binary insertion: each of the remaining elements, in order, is inserted
in the sorted part at its insertion point. -/
def binaryInsertionSort {α : Type} (compareFn : α → α → Except JSError Int) :
    List α → List α → Except JSError (List α)
  | sorted, [] => .ok sorted
  | sorted, pivot :: rest =>
    match insertionPoint compareFn pivot sorted sorted.length 0 sorted.length with
    | .error e => .error e
    | .ok left =>
      binaryInsertionSort compareFn (sorted.take left ++ pivot :: sorted.drop left) rest

/-- The method `Array.prototype.sort(compareFn)` on an array without holes:
an array of fewer than two elements is returned as it is, without any call of
the comparator; otherwise the first two elements are compared, the run they
start is counted and made ascending, and the other elements are inserted.
The sort throws as soon as a call of the comparator throws. -/
def arraySort {α : Type} (compareFn : α → α → Except JSError Int) :
    List α → Except JSError (List α)
  | first :: second :: rest =>
    match compareFn second first with
    | .error e => .error e
    | .ok order =>
      let descending := decide (order < 0)
      match countRun compareFn descending second rest with
      | .error e => .error e
      | .ok n =>
        let run := (first :: second :: rest).take (n + 2)
        binaryInsertionSort compareFn (if descending then run.reverse else run)
          (rest.drop n)
  | short => .ok short

/-- Three-way comparison of two strings by code points. -/
def compareCodePoints : List Char → List Char → Int
  | [], [] => 0
  | [], _ :: _ => -1
  | _ :: _, [] => 1
  | a :: as, b :: bs =>
    if a.toNat < b.toNat then -1
    else if b.toNat < a.toNat then 1
    else compareCodePoints as bs

/-- A host on which closed examples are evaluated.  It is one lawful
collation, not the one of the engine: it orders strings by code point, where
the collation of an engine puts `:` before the digits (`"1:00"` before
`"10:00"`) and letters of both cases together.  It prints an integer in
decimal, as the engine does below `10 ^ 21`; the other finite numbers are
printed as a fraction, which is not the text the engine prints.  The
statements below about the order of a collection are made for every lawful
host; the sample host only instantiates them. -/
def sampleHost : Host where
  localeCompare := fun a b => compareCodePoints a.data b.data
  numberToString := fun n =>
    match n with
    | .nan => "NaN"
    | .inf negative => if negative then "-Infinity" else "Infinity"
    | .fin q => if q.den = 1 then toString q.num else toString q.num ++ "/" ++ toString q.den

/-! ## Records and the remote store facade -/

/-- A record of the remote store: a mapping from field names to values. -/
abbrev Record := List (String × JSValue)

/-- The property read `r.field`: `undefined` when the field is absent. -/
def Record.get (r : Record) (field : String) : JSValue :=
  (r.lookup field).getD .undefined

/-- The body of a write: a flat payload, or the payload of an update, which
nests the changed fields under `updates`. -/
inductive PostData where
  | record (fields : Record)
  | update (id : JSValue) (updates : Record)
  deriving DecidableEq

/-- A request sent to the endpoint: a read of a sheet, with the `tripId`
parameter when there is one, or a write. -/
inductive Request where
  | get (sheet : String) (tripId : Option JSValue)
  | post (action sheet : String) (data : PostData)
  deriving DecidableEq

/-- What `res.json()` gives for the body of a reply: an array of records, or
some value that is not an array. -/
inductive JSONBody where
  | array (items : List Record)
  | object (fields : Record)
  | scalar (v : JSValue)
  deriving DecidableEq

/-- The outcome of a read: `fetch` or `res.json()` rejects (network error,
body that is not JSON), or a body is parsed. -/
inductive Reply where
  | failed
  | body (v : JSONBody)
  deriving DecidableEq

namespace api

/-- The function `api.fetch`: the request carries `tripId` only when it is
truthy; a failure is caught and replaced by the empty array. -/
def fetch (sheet : String) (tripId : JSValue) (reply : Reply) : Request × JSONBody :=
  let url := Request.get sheet (if tripId.truthy then some tripId else none)
  match reply with
  | .body v => (url, v)
  | .failed => (url, .array [])

/-- The function `api.post`: one request; the second component tells whether
the call returned (`completed`) rather than threw, the rejection of `fetch`
not being caught. -/
def post (action sheet : String) (data : PostData) (completed : Bool) : Request × Bool :=
  (Request.post action sheet data, completed)

end api

/-! ## The hook `useSheetData` -/

/-- The state of the hook: `data` and `loading`. -/
structure SheetData where
  data : List Record
  loading : Bool
  deriving DecidableEq

/-- What a run of `load` leaves: the state, the requests issued, and whether
the run ended by an exception (an unhandled rejection). -/
structure LoadResult where
  state : SheetData
  requests : List Request
  thrown : Bool

/-- The comparator of `load`: `(b.createdAt || '').localeCompare(a.createdAt || '')`. -/
def createdAtDescending (H : Host) (a b : Record) : Except JSError Int :=
  localeCompareCall H ((b.get "createdAt").or (.str "")) ((a.get "createdAt").or (.str ""))

/-- The function `load` of the effect, run from the state `s` with the reply
the read gets.  The guard returns before anything is set; otherwise `loading`
is set, the read is made, an array is sorted in place and stored, and
`loading` is cleared.  An exception in the comparator ends the run after
`setLoading(true)`. -/
def load (H : Host) (sheetName : String) (tripId : JSValue) (reply : Reply)
    (s : SheetData) : LoadResult :=
  if sheetName ≠ "trips" ∧ tripId.truthy = false then ⟨s, [], false⟩
  else
    let s1 : SheetData := { s with loading := true }
    let (request, items) := api.fetch sheetName tripId reply
    match items with
    | .array xs =>
      match arraySort (createdAtDescending H) xs with
      | .ok sorted => ⟨{ data := sorted, loading := false }, [request], false⟩
      | .error _ => ⟨s1, [request], true⟩
    | _ => ⟨{ s1 with loading := false }, [request], false⟩

/-- An instance of the hook in a mounted component: its state and the
dependency array of the last effect run (`none` before the first). -/
structure HookInstance where
  state : SheetData
  deps : Option (String × JSValue × Nat)

/-- The instance at mount: `useState([])`, `useState(true)`, no effect run. -/
def useSheetData.mount : HookInstance :=
  ⟨⟨[], true⟩, none⟩

/-- One render of `useSheetData(sheetName, tripId, refreshTrigger)` with its
effect: `load` runs after the first render and whenever a dependency has
changed, and not otherwise. -/
def useSheetData (H : Host) (h : HookInstance) (sheetName : String) (tripId : JSValue)
    (refreshTrigger : Nat) (reply : Reply) : HookInstance × LoadResult :=
  if h.deps = some (sheetName, tripId, refreshTrigger) then (h, ⟨h.state, [], false⟩)
  else
    let r := load H sheetName tripId reply h.state
    (⟨r.state, some (sheetName, tripId, refreshTrigger)⟩, r)

/-- Successive renders of a mounted hook with the same `sheetName` and
`tripId`, each with its `refreshTrigger` and the reply a read would get;
the requests issued are collected. -/
def useSheetData.renders (H : Host) (sheetName : String) (tripId : JSValue) :
    HookInstance → List (Nat × Reply) → HookInstance × List Request
  | h, [] => (h, [])
  | h, (refreshTrigger, reply) :: rest =>
    let (h1, r) := useSheetData H h sheetName tripId refreshTrigger reply
    let (h2, reqs) := useSheetData.renders H sheetName tripId h1 rest
    (h2, r.requests ++ reqs)

/-! ## The views -/

/-- What a handler does besides computing: it sends a request, reloads the
page (`window.location.reload()`), or calls its `onUpdate` prop. -/
inductive Effect where
  | request (r : Request)
  | reload
  | onUpdate
  deriving DecidableEq

/-- The value `prompt(...)` returns: `null` when the user cancels, else the
text entered (which can be empty). -/
def promptValue : Option String → JSValue
  | none => .null
  | some s => .str s

namespace TripSelection

/-- The emojis `handleCreate` picks the cover from. -/
def coverEmojis : List String :=
  ["🇯🇵", "🇹🇭", "🇺🇸", "🇰🇷", "🇫🇷"]

/-- The handler `handleCreate`: `title` and `startDate` are the answers to
the two prompts, `pick` is `Math.floor(Math.random() * 5)`.  Only a falsy
title returns early; the write is then awaited and the page reloaded. -/
def handleCreate (title startDate : Option String) (pick : Fin 5) (completed : Bool) :
    List Effect :=
  if (promptValue title).truthy = false then []
  else
    let (request, returned) := api.post "add" "trips" (.record [
      ("title", promptValue title),
      ("startDate", promptValue startDate),
      ("coverEmoji", .str (coverEmojis.getD pick.val ""))]) completed
    if returned then [.request request, .reload] else [.request request]

end TripSelection

namespace ScheduleTab

/-- The comparator of `sortedEvents`: `(a.time || '').localeCompare(b.time || '')`. -/
def timeAscending (H : Host) (a b : Record) : Except JSError Int :=
  localeCompareCall H ((a.get "time").or (.str "")) ((b.get "time").or (.str ""))

/-- The constant `sortedEvents`: a sorted copy of the events the hook holds
(an array, which is truthy even when empty). -/
def sortedEvents (H : Host) (events : List Record) : Except JSError (List Record) :=
  arraySort (timeAscending H) events

/-- The handler `handleAdd`: `title` and `time` are the answers to the two
prompts.  Only a falsy title returns early. -/
def handleAdd (trip : Record) (title time : Option String) (completed : Bool) :
    List Effect :=
  if (promptValue title).truthy = false then []
  else
    let (request, returned) := api.post "add" "events" (.record [
      ("tripId", trip.get "id"),
      ("title", promptValue title),
      ("time", promptValue time),
      ("type", .str "spot"),
      ("location", .str "TBD")]) completed
    if returned then [.request request, .onUpdate] else [.request request]

/-- The handler `handleDelete`: `confirmed` is what `confirm(...)` returns. -/
def handleDelete (id : JSValue) (confirmed completed : Bool) : List Effect :=
  if confirmed then
    let (request, returned) := api.post "delete" "events" (.record [("id", id)]) completed
    if returned then [.request request, .onUpdate] else [.request request]
  else []

end ScheduleTab

namespace ExpenseTab

/-- The constant `total`:
`expenses.reduce((acc, cur) => acc + Number(cur.amount || 0), 0)`. -/
def total (expenses : List Record) : JSNumber :=
  expenses.foldl
    (fun acc cur => acc.add (((cur.get "amount").or (.num (.fin 0))).toNumber))
    (.fin 0)

/-- The handler `handleAdd`: `amount` and `item` are the answers to the two
prompts.  Only a falsy amount returns early; a falsy item is replaced by a
default name. -/
def handleAdd (trip : Record) (amount item : Option String) (completed : Bool) :
    List Effect :=
  if (promptValue amount).truthy = false then []
  else
    let (request, returned) := api.post "add" "expenses" (.record [
      ("tripId", trip.get "id"),
      ("amount", promptValue amount),
      ("item", (promptValue item).or (.str "未命名")),
      ("payer", .str "Me")]) completed
    if returned then [.request request, .onUpdate] else [.request request]

end ExpenseTab

namespace TodoTab

/-- The constant `isDone` of a rendered todo:
`t.done === true || t.done === 'TRUE'`. -/
def isDone (t : Record) : Bool :=
  (t.get "done").strictEquals (.bool true) || (t.get "done").strictEquals (.str "TRUE")

/-- The handler `handleAdd`: `text` is the answer to the prompt. -/
def handleAdd (trip : Record) (text : Option String) (completed : Bool) : List Effect :=
  if (promptValue text).truthy = false then []
  else
    let (request, returned) := api.post "add" "todos" (.record [
      ("tripId", trip.get "id"),
      ("text", promptValue text),
      ("done", .bool false)]) completed
    if returned then [.request request, .onUpdate] else [.request request]

/-- The handler `toggle`: the new status is the negation of the normalised
`done`. -/
def toggle (todo : Record) (completed : Bool) : List Effect :=
  let newStatus := !(isDone todo)
  let (request, returned) := api.post "update" "todos"
    (.update (todo.get "id") [("done", .bool newStatus)]) completed
  if returned then [.request request, .onUpdate] else [.request request]

end TodoTab

/-! ## The root component `App` -/

/-- The ids of the four tabs. -/
inductive Tab where
  | schedule
  | bookings
  | expense
  | planning
  deriving DecidableEq

/-- The state of `App`: `currentTrip` (`null` or a trip record), `activeTab`
and `refreshCount`.  The counter is a natural number: its values stay far
below `2 ^ 53`, where `c + 1` is exact. -/
structure AppState where
  currentTrip : Option Record
  activeTab : Tab
  refreshCount : Nat
  deriving DecidableEq

namespace App

/-- The initial state: `useState(null)`, `useState('schedule')`, `useState(0)`. -/
def init : AppState :=
  ⟨none, .schedule, 0⟩

/-- The setter `setCurrentTrip`. -/
def setCurrentTrip (s : AppState) (trip : Option Record) : AppState :=
  { s with currentTrip := trip }

/-- The setter `setActiveTab`. -/
def setActiveTab (s : AppState) (tab : Tab) : AppState :=
  { s with activeTab := tab }

/-- The function `triggerRefresh`: `setRefreshCount(c => c + 1)`. -/
def triggerRefresh (s : AppState) : AppState :=
  { s with refreshCount := s.refreshCount + 1 }

/-- What the user can do: click a trip card, the back button or a tab of
the bottom navigation, or start one of the handlers of the views (with the
answers to its prompts and whether its write request completed). -/
inductive Action where
  | selectTrip (trip : Record)
  | back
  | selectTab (tab : Tab)
  | createTrip (title startDate : Option String) (pick : Fin 5) (completed : Bool)
  | addEvent (title time : Option String) (completed : Bool)
  | deleteEvent (id : JSValue) (confirmed completed : Bool)
  | addExpense (amount item : Option String) (completed : Bool)
  | addTodo (text : Option String) (completed : Bool)
  | toggleTodo (todo : Record) (completed : Bool)

/-- The effects of an action on the rendered tree: the trip list, with its
cards and its create button, is rendered when `currentTrip` is `null`;
otherwise the back button, the bottom navigation and the view of the
active tab are.  A control that is not rendered cannot be used. -/
def effects (s : AppState) : Action → List Effect
  | .createTrip title startDate pick completed =>
    match s.currentTrip with
    | none => TripSelection.handleCreate title startDate pick completed
    | some _ => []
  | .addEvent title time completed =>
    match s.currentTrip, s.activeTab with
    | some trip, .schedule => ScheduleTab.handleAdd trip title time completed
    | _, _ => []
  | .deleteEvent id confirmed completed =>
    match s.currentTrip, s.activeTab with
    | some _, .schedule => ScheduleTab.handleDelete id confirmed completed
    | _, _ => []
  | .addExpense amount item completed =>
    match s.currentTrip, s.activeTab with
    | some trip, .expense => ExpenseTab.handleAdd trip amount item completed
    | _, _ => []
  | .addTodo text completed =>
    match s.currentTrip, s.activeTab with
    | some trip, .planning => TodoTab.handleAdd trip text completed
    | _, _ => []
  | .toggleTodo todo completed =>
    match s.currentTrip, s.activeTab with
    | some _, .planning => TodoTab.toggle todo completed
    | _, _ => []
  | _ => []

/-- Carry out the effects of a handler in order: a request is sent, the
prop `onUpdate` is `triggerRefresh`, and a page reload starts the
application afresh. -/
def perform : AppState → List Effect → AppState × List Request
  | s, [] => (s, [])
  | s, .request r :: rest =>
    let (s1, reqs) := perform s rest
    (s1, r :: reqs)
  | s, .onUpdate :: rest => perform (triggerRefresh s) rest
  | _, .reload :: rest => perform init rest

/-- One step of the application: the navigation handlers of `App`
(`onSelectTrip` is `setCurrentTrip`, the back button sets `null`, a tab
button sets `activeTab`), or a handler of the rendered view. -/
def step (s : AppState) (a : Action) : AppState × List Request :=
  match a with
  | .selectTrip trip =>
    match s.currentTrip with
    | none => (setCurrentTrip s (some trip), [])
    | some _ => (s, [])
  | .back =>
    match s.currentTrip with
    | some _ => (setCurrentTrip s none, [])
    | none => (s, [])
  | .selectTab tab =>
    match s.currentTrip with
    | some _ => (setActiveTab s tab, [])
    | none => (s, [])
  | a => perform s (effects s a)

/-- A run: the state after a sequence of actions, and the requests sent. -/
def run : AppState → List Action → AppState × List Request
  | s, [] => (s, [])
  | s, a :: rest =>
    let (s1, reqs1) := step s a
    let (s2, reqs2) := run s1 rest
    (s2, reqs1 ++ reqs2)

end App

/-! ## Notions used in the statements -/

/-- The string `(v || '')` of a comparator, for a value that is a string or
falsy. -/
def JSValue.orEmpty (v : JSValue) : String :=
  match v.or (.str "") with
  | .str s => s
  | _ => ""

/-- Whether a value is a string or falsy: the values on which
`(v || '').localeCompare` is defined. -/
def JSValue.stringOrFalsy (v : JSValue) : Bool :=
  match v with
  | .str _ => true
  | w => !w.truthy

/-- The number an expense adds to the total: `Number(cur.amount || 0)`. -/
def ExpenseTab.coercedAmount (cur : Record) : JSNumber :=
  ((cur.get "amount").or (.num (.fin 0))).toNumber

/-- A comparator that is consistent on the elements that satisfy `P`: on
them it returns the integer `c x y`, which is antisymmetric in sign and
transitive. -/
structure ConsistentOn {α : Type} (compareFn : α → α → Except JSError Int)
    (c : α → α → Int) (P : α → Prop) : Prop where
  ok : ∀ x y, P x → P y → compareFn x y = .ok (c x y)
  flip : ∀ x y, c x y < 0 ↔ 0 < c y x
  trans : ∀ x y z, c x y ≤ 0 → c y z ≤ 0 → c x z ≤ 0

/-- Whether an action is the creation of a trip. -/
def App.Action.isCreateTrip : App.Action → Bool
  | .createTrip _ _ _ _ => true
  | _ => false

/-- Whether the write request of an action completed (an action that sends
none has none completed). -/
def App.Action.completed : App.Action → Bool
  | .createTrip _ _ _ c => c
  | .addEvent _ _ c => c
  | .deleteEvent _ _ c => c
  | .addExpense _ _ c => c
  | .addTodo _ c => c
  | .toggleTodo _ c => c
  | _ => false

/-! # Properties -/

/-! ## Rounding is exact on the safe integers -/

theorem pow2_eq_zpow (e : Int) : pow2 e = (2 : ℚ) ^ e := by
  unfold pow2
  split
  · rename_i h
    conv_rhs => rw [← Int.toNat_of_nonneg h]
    rw [zpow_natCast]
  · rename_i h
    have h1 : 0 ≤ -e := by omega
    have h2 : e = -((-e).toNat : Int) := by rw [Int.toNat_of_nonneg h1]; ring
    conv_rhs => rw [h2]
    rw [zpow_neg, zpow_natCast, one_div]

theorem roundPos_natCast (n : Nat) (h0 : 0 < n) (hn : n < 2 ^ 53) :
    roundPos (n : ℚ) = n := by
  have hne : n ≠ 0 := by omega
  have hlo : 2 ^ Nat.log2 n ≤ n := Nat.log2_self_le hne
  have hk : Nat.log2 n < 53 := (Nat.log2_lt hne).2 hn
  have hlog1 : Nat.log2 1 = 0 := by simp [Nat.log2]
  have hloQ : ((2 : ℚ) ^ Nat.log2 n) ≤ (n : ℚ) := by exact_mod_cast hlo
  have hnot : ¬ ((n : ℚ) < (2 : ℚ) ^ ((Nat.log2 n : Int))) := by
    rw [zpow_natCast]; exact not_lt.2 hloQ
  have he : max ((Nat.log2 n : Int) - 52) (-1074) = -((52 - Nat.log2 n : Nat) : Int) := by
    omega
  have hscaled : (n : ℚ) / (2 : ℚ) ^ (-((52 - Nat.log2 n : Nat) : Int))
      = ((n * 2 ^ (52 - Nat.log2 n) : Nat) : ℚ) := by
    rw [zpow_neg, zpow_natCast, div_inv_eq_mul]
    push_cast
    ring
  simp only [roundPos, pow2_eq_zpow, Rat.num_natCast, Rat.den_natCast, Int.natAbs_ofNat, hlog1,
    Nat.cast_zero, sub_zero, hnot, if_false, he, hscaled, Int.floor_natCast]
  have hr : (((n * 2 ^ (52 - Nat.log2 n) : Nat) : ℚ)
      - (((n * 2 ^ (52 - Nat.log2 n) : Nat) : Int) : ℚ)) = 0 := by
    push_cast; ring
  rw [hr]
  have h1 : ¬ ((1 : ℚ) / 2 < 0) := by norm_num
  have h2 : ¬ ((0 : ℚ) = 1 / 2) := by norm_num
  simp only [h1, h2, false_and, or_self, if_false]
  rw [zpow_neg, zpow_natCast]
  push_cast
  field_simp

theorem roundToDouble_intCast (z : Int) (hz : z.natAbs < 2 ^ 53) :
    roundToDouble (z : ℚ) = .fin z := by
  unfold roundToDouble
  by_cases h0 : (z : ℚ) = 0
  · simp [h0]
  · have hz0 : z ≠ 0 := by exact_mod_cast h0
    have habs : |(z : ℚ)| = ((z.natAbs : Nat) : ℚ) := by
      rw [← Int.cast_abs, ← Int.natCast_natAbs, Int.cast_natCast]
    have hpos : 0 < z.natAbs := Int.natAbs_pos.2 hz0
    have hlt : ¬ ((2 : ℚ) ^ 1024 ≤ ((z.natAbs : Nat) : ℚ)) := by
      have : ((z.natAbs : Nat) : ℚ) < 2 ^ 53 := by exact_mod_cast hz
      have h2 : (2 : ℚ) ^ 53 ≤ 2 ^ 1024 := by norm_num
      intro h
      linarith
    simp only [h0, if_false, habs, roundPos_natCast _ hpos hz, hlt]
    congr 1
    by_cases hneg : (z : ℚ) < 0
    · simp only [hneg, if_true]
      rw [← habs, abs_of_neg hneg]; ring
    · simp only [hneg, if_false]
      rw [← habs, abs_of_nonneg (not_lt.1 hneg)]

theorem add_intCast (a z : Int) (h : a.natAbs + z.natAbs < 2 ^ 53) :
    JSNumber.add (.fin a) (.fin z) = .fin ((a + z : Int) : ℚ) := by
  have hb : (a + z).natAbs < 2 ^ 53 := lt_of_le_of_lt (Int.natAbs_add_le a z) h
  show roundToDouble ((a : ℚ) + (z : ℚ)) = _
  rw [← Int.cast_add]
  exact roundToDouble_intCast _ hb

theorem add_nan_right (x : JSNumber) : JSNumber.add x .nan = .nan := by
  cases x <;> rfl

/-! ## The total of the expenses -/

theorem foldl_add_nan (l : List Record) :
    l.foldl (fun (acc : JSNumber) cur => acc.add (ExpenseTab.coercedAmount cur)) JSNumber.nan
      = JSNumber.nan := by
  induction l with
  | nil => rfl
  | cons e l ih => simpa [List.foldl, JSNumber.add] using ih

theorem foldl_add_of_nan_mem (l : List Record) (acc : JSNumber)
    (h : ∃ e ∈ l, ExpenseTab.coercedAmount e = .nan) :
    l.foldl (fun (acc : JSNumber) cur => acc.add (ExpenseTab.coercedAmount cur)) acc
      = JSNumber.nan := by
  induction l generalizing acc with
  | nil => simp at h
  | cons e l ih =>
    obtain ⟨x, hx, hnan⟩ := h
    simp only [List.foldl]
    rcases List.mem_cons.1 hx with rfl | hx
    · rw [hnan, add_nan_right]
      exact foldl_add_nan l
    · exact ih _ ⟨x, hx, hnan⟩

theorem foldl_add_of_integers (l : List Record) (zs : List Int) (a : Int)
    (hz : List.Forall₂ (fun (e : Record) (z : Int) => ExpenseTab.coercedAmount e = .fin (z : ℚ))
      l zs)
    (hb : a.natAbs + (zs.map Int.natAbs).sum < 2 ^ 53) :
    l.foldl (fun (acc : JSNumber) cur => acc.add (ExpenseTab.coercedAmount cur)) (JSNumber.fin a)
      = JSNumber.fin ((a + zs.sum : Int) : ℚ) := by
  induction hz generalizing a with
  | nil => simp
  | @cons e z l zs he _ ih =>
    simp only [List.map_cons, List.sum_cons] at hb
    simp only [List.foldl, he, List.sum_cons]
    rw [add_intCast a z (by omega)]
    have hle := Int.natAbs_add_le a z
    rw [ih (a + z) (by omega)]
    congr 2
    ring

/-! ## Collation and sorting -/

theorem compareCodePoints_flip (a b : List Char) :
    compareCodePoints a b < 0 ↔ 0 < compareCodePoints b a := by
  induction a generalizing b with
  | nil => cases b <;> simp [compareCodePoints]
  | cons x xs ih =>
    cases b with
    | nil => simp [compareCodePoints]
    | cons y ys =>
      simp only [compareCodePoints]
      by_cases h1 : x.toNat < y.toNat
      · have h2 : ¬ y.toNat < x.toNat := by omega
        simp [h1, h2]
      · by_cases h2 : y.toNat < x.toNat
        · simp [h1, h2]
        · simp [h1, h2, ih]

theorem compareCodePoints_trans (a b c : List Char)
    (hab : compareCodePoints a b ≤ 0) (hbc : compareCodePoints b c ≤ 0) :
    compareCodePoints a c ≤ 0 := by
  induction a generalizing b c with
  | nil => cases c <;> simp [compareCodePoints]
  | cons x xs ih =>
    cases b with
    | nil => simp [compareCodePoints] at hab
    | cons y ys =>
      cases c with
      | nil => simp [compareCodePoints] at hbc
      | cons z zs =>
        simp only [compareCodePoints] at hab hbc ⊢
        by_cases h1 : x.toNat < y.toNat
        · by_cases h3 : y.toNat < z.toNat
          · have : x.toNat < z.toNat := by omega
            simp [this]
          · by_cases h4 : z.toNat < y.toNat
            · simp [h3, h4] at hbc
            · have : x.toNat < z.toNat := by omega
              simp [this]
        · by_cases h2 : y.toNat < x.toNat
          · simp [h1, h2] at hab
          · simp only [h1, h2, if_false] at hab
            by_cases h3 : y.toNat < z.toNat
            · have : x.toNat < z.toNat := by omega
              simp [this]
            · by_cases h4 : z.toNat < y.toNat
              · simp [h3, h4] at hbc
              · simp only [h3, h4, if_false] at hbc
                have h5 : ¬ x.toNat < z.toNat := by omega
                have h6 : ¬ z.toNat < x.toNat := by omega
                simp only [h5, h6, if_false]
                exact ih ys zs hab hbc

theorem sampleHost_lawful : LawfulCollation sampleHost.localeCompare where
  total := by
    intro a b
    by_cases h : compareCodePoints a.data b.data ≤ 0
    · exact Or.inl h
    · right
      have : 0 < compareCodePoints a.data b.data := by omega
      have := (compareCodePoints_flip b.data a.data).2 this
      show compareCodePoints b.data a.data ≤ 0
      omega
  trans := fun a b c => compareCodePoints_trans a.data b.data c.data
  flip := fun a b => compareCodePoints_flip a.data b.data
  emptyFirst := by
    intro s
    show compareCodePoints "".data s.data ≤ 0
    cases h : s.data <;> simp [compareCodePoints]

theorem LawfulCollation.self_eq_zero {lc : String → String → Int} (h : LawfulCollation lc)
    (s : String) : lc s s = 0 := by
  have h1 := h.flip s s
  rcases h.total s s with h2 | h2 <;> omega

theorem ConsistentOn.le_of_not_lt {α : Type} {compareFn : α → α → Except JSError Int}
    {c : α → α → Int} {P : α → Prop} (h : ConsistentOn compareFn c P) (x y : α)
    (hxy : ¬ c x y < 0) : c y x ≤ 0 := by
  have := h.flip x y
  omega

theorem ConsistentOn.lt_of_lt_of_le {α : Type} {compareFn : α → α → Except JSError Int}
    {c : α → α → Int} {P : α → Prop} (h : ConsistentOn compareFn c P) (x y z : α)
    (hxy : c x y < 0) (hyz : c y z ≤ 0) : c x z < 0 := by
  by_contra hn
  have h1 : c z x ≤ 0 := h.le_of_not_lt x z hn
  have h2 : c y x ≤ 0 := h.trans y z x hyz h1
  have := h.flip x y
  omega

theorem insertionPoint_spec {α : Type} {compareFn : α → α → Except JSError Int}
    {c : α → α → Int} {P : α → Prop} (h : ConsistentOn compareFn c P)
    (pivot : α) (hp : P pivot) (s : List α) (hs : s.Pairwise (fun x y => c x y ≤ 0))
    (hPs : ∀ x ∈ s, P x) (fuel left right : Nat)
    (hlr : left ≤ right) (hr : right ≤ s.length) (hfuel : right - left ≤ fuel)
    (hleft : ∀ x ∈ s.take left, c x pivot ≤ 0)
    (hright : ∀ x ∈ s.drop right, c pivot x < 0) :
    ∃ pos, insertionPoint compareFn pivot s fuel left right = .ok pos
      ∧ pos ≤ s.length
      ∧ (∀ x ∈ s.take pos, c x pivot ≤ 0)
      ∧ (∀ x ∈ s.drop pos, c pivot x < 0) := by
  induction fuel generalizing left right with
  | zero =>
    have hEq : left = right := by omega
    subst hEq
    exact ⟨left, rfl, hr, hleft, hright⟩
  | succ fuel ih =>
    by_cases hlt : left < right
    · have hmid : left + (right - left) / 2 < s.length := by omega
      have hmidr : left + (right - left) / 2 < right := by omega
      have hget : s[left + (right - left) / 2]? = some s[left + (right - left) / 2] :=
        List.getElem?_eq_getElem hmid
      have hPm : P s[left + (right - left) / 2] := hPs _ (List.getElem_mem _)
      have hsplit : s = s.take (left + (right - left) / 2)
          ++ s[left + (right - left) / 2] :: s.drop (left + (right - left) / 2 + 1) := by
        rw [← List.drop_eq_getElem_cons hmid, List.take_append_drop]
      have hsorted := hs
      rw [hsplit, List.pairwise_append] at hsorted
      obtain ⟨_, hs2, hs3⟩ := hsorted
      rw [List.pairwise_cons] at hs2
      simp only [insertionPoint, if_pos hlt, hget, h.ok _ _ hp hPm]
      by_cases hord : c pivot s[left + (right - left) / 2] < 0
      · simp only [if_pos hord]
        apply ih left (left + (right - left) / 2) (by omega) (by omega) (by omega) hleft
        intro x hx
        rw [List.drop_eq_getElem_cons hmid] at hx
        rcases List.mem_cons.1 hx with rfl | hx
        · exact hord
        · exact h.lt_of_lt_of_le _ _ _ hord (hs2.1 x hx)
      · simp only [if_neg hord]
        apply ih (left + (right - left) / 2 + 1) right (by omega) hr (by omega) _ hright
        intro x hx
        rw [List.take_succ, hget] at hx
        simp only [Option.toList_some, List.mem_append, List.mem_singleton] at hx
        have hmp : c s[left + (right - left) / 2] pivot ≤ 0 := h.le_of_not_lt _ _ hord
        rcases hx with hx | rfl
        · exact h.trans _ _ _ (hs3 x hx _ (List.mem_cons_self _ _)) hmp
        · exact hmp
    · have hEq : left = right := by omega
      subst hEq
      exact ⟨left, by simp [insertionPoint], hr, hleft, hright⟩

theorem binaryInsertionSort_spec {α : Type} {compareFn : α → α → Except JSError Int}
    {c : α → α → Int} {P : α → Prop} (h : ConsistentOn compareFn c P)
    (rest sorted : List α) (hs : sorted.Pairwise (fun x y => c x y ≤ 0))
    (hPs : ∀ x ∈ sorted, P x) (hPr : ∀ x ∈ rest, P x) :
    ∃ out, binaryInsertionSort compareFn sorted rest = .ok out
      ∧ out.Perm (sorted ++ rest)
      ∧ out.Pairwise (fun x y => c x y ≤ 0) := by
  induction rest generalizing sorted with
  | nil => exact ⟨sorted, rfl, by simp, hs⟩
  | cons pivot rest ih =>
    have hp : P pivot := hPr pivot (List.mem_cons_self _ _)
    obtain ⟨pos, hpos, hle, hbefore, hafter⟩ :=
      insertionPoint_spec h pivot hp sorted hs hPs sorted.length 0 sorted.length
        (Nat.zero_le _) (le_refl _) (by omega) (by simp) (by simp)
    have hperm : (sorted.take pos ++ pivot :: sorted.drop pos).Perm (pivot :: sorted) := by
      have h1 : (sorted.take pos ++ pivot :: sorted.drop pos).Perm
          (pivot :: (sorted.take pos ++ sorted.drop pos)) := List.perm_middle
      rwa [List.take_append_drop] at h1
    have hsorted : (sorted.take pos ++ pivot :: sorted.drop pos).Pairwise
        (fun x y => c x y ≤ 0) := by
      have hs1 := hs
      rw [← List.take_append_drop pos sorted, List.pairwise_append] at hs1
      obtain ⟨ht, hd, htd⟩ := hs1
      rw [List.pairwise_append]
      refine ⟨ht, List.pairwise_cons.2 ⟨fun x hx => le_of_lt (hafter x hx), hd⟩, ?_⟩
      intro x hx y hy
      rcases List.mem_cons.1 hy with rfl | hy
      · exact hbefore x hx
      · exact htd x hx y hy
    have hP1 : ∀ x ∈ sorted.take pos ++ pivot :: sorted.drop pos, P x := by
      intro x hx
      rcases List.mem_cons.1 (hperm.mem_iff.1 hx) with rfl | hx
      · exact hp
      · exact hPs x hx
    obtain ⟨out, hout, hoperm, hosorted⟩ :=
      ih _ hsorted hP1 fun x hx => hPr x (List.mem_cons_of_mem _ hx)
    refine ⟨out, ?_, ?_, hosorted⟩
    · simp only [binaryInsertionSort, hpos, hout]
    · refine hoperm.trans ?_
      have h2 : (sorted.take pos ++ pivot :: sorted.drop pos ++ rest).Perm
          (pivot :: sorted ++ rest) := hperm.append_right rest
      refine h2.trans ?_
      simpa using (@List.perm_middle α pivot sorted rest).symm

theorem countRun_spec {α : Type} {compareFn : α → α → Except JSError Int}
    {c : α → α → Int} {P : α → Prop} (h : ConsistentOn compareFn c P) (descending : Bool)
    (rest : List α) (previous : α) (hp : P previous) (hPr : ∀ x ∈ rest, P x) :
    ∃ n, countRun compareFn descending previous rest = .ok n
      ∧ n ≤ rest.length
      ∧ (previous :: rest.take n).Chain'
          (fun a b => if descending then c b a < 0 else c a b ≤ 0) := by
  induction rest generalizing previous with
  | nil => exact ⟨0, rfl, le_refl _, by simp⟩
  | cons current rest ih =>
    have hc : P current := hPr current (List.mem_cons_self _ _)
    obtain ⟨n, hn, hle, hchain⟩ := ih current hc fun x hx => hPr x (List.mem_cons_of_mem _ hx)
    simp only [countRun, h.ok _ _ hc hp]
    by_cases hstop : (descending = true ∧ 0 ≤ c current previous)
        ∨ (¬ descending = true ∧ c current previous < 0)
    · exact ⟨0, by simp only [if_pos hstop], Nat.zero_le _, by simp⟩
    · refine ⟨n + 1, by simp only [if_neg hstop, hn], by simpa using hle, ?_⟩
      rw [List.take_succ_cons, List.chain'_cons]
      refine ⟨?_, hchain⟩
      cases descending with
      | true =>
        simp only [true_and, not_true_eq_false, false_and, or_false, not_le] at hstop
        simpa using hstop
      | false =>
        simp only [Bool.false_eq_true, false_and, not_false_eq_true, true_and, false_or,
          not_lt] at hstop
        have := h.le_of_not_lt current previous (by omega)
        simpa using this

theorem arraySort_spec {α : Type} {compareFn : α → α → Except JSError Int}
    {c : α → α → Int} {P : α → Prop} (h : ConsistentOn compareFn c P)
    (l : List α) (hP : ∀ x ∈ l, P x) :
    ∃ out, arraySort compareFn l = .ok out
      ∧ out.Perm l
      ∧ out.Pairwise (fun x y => c x y ≤ 0) := by
  haveI : IsTrans α (fun x y => c x y ≤ 0) := ⟨h.trans⟩
  match l, hP with
  | [], _ => exact ⟨[], rfl, List.Perm.refl _, List.Pairwise.nil⟩
  | [x], _ => exact ⟨[x], rfl, List.Perm.refl _, List.pairwise_singleton _ _⟩
  | first :: second :: rest, hP =>
    have hf : P first := hP first (List.mem_cons_self _ _)
    have hsnd : P second := hP second (List.mem_cons_of_mem _ (List.mem_cons_self _ _))
    have hPr : ∀ x ∈ rest, P x := fun x hx =>
      hP x (List.mem_cons_of_mem _ (List.mem_cons_of_mem _ hx))
    obtain ⟨n, hn, hle, hchain⟩ :=
      countRun_spec h (decide (c second first < 0)) rest second hsnd hPr
    have hrun : (first :: second :: rest).take (n + 2) = first :: second :: rest.take n := rfl
    have hPrun : ∀ x ∈ first :: second :: rest.take n, P x := by
      intro x hx
      rcases List.mem_cons.1 hx with rfl | hx
      · exact hf
      · rcases List.mem_cons.1 hx with rfl | hx
        · exact hsnd
        · exact hPr x (List.mem_of_mem_take hx)
    have hPd : ∀ x ∈ rest.drop n, P x := fun x hx => hPr x (List.mem_of_mem_drop hx)
    have hsplit : (first :: second :: rest.take n) ++ rest.drop n = first :: second :: rest := by
      simp [List.take_append_drop]
    by_cases hdesc : c second first < 0
    · have hsorted : (first :: second :: rest.take n).reverse.Pairwise
          (fun x y => c x y ≤ 0) := by
        have hch : (first :: second :: rest.take n).Chain' (fun a b => c b a < 0) := by
          rw [List.chain'_cons]
          refine ⟨hdesc, ?_⟩
          simpa [hdesc] using hchain
        rw [List.pairwise_reverse]
        haveI : IsTrans α (fun a b => c b a < 0) :=
          ⟨fun x y z hxy hyz => h.lt_of_lt_of_le z y x hyz (le_of_lt hxy)⟩
        exact (List.chain'_iff_pairwise.1 hch).imp fun hab => le_of_lt hab
      obtain ⟨out, hout, hperm, hos⟩ := binaryInsertionSort_spec h (rest.drop n) _ hsorted
        (fun x hx => hPrun x (List.mem_reverse.1 hx)) hPd
      have hn1 : countRun compareFn true second rest = .ok n := by simpa [hdesc] using hn
      refine ⟨out, ?_, ?_, hos⟩
      · simp only [arraySort, h.ok _ _ hsnd hf, hdesc, decide_True, hn1, hrun, if_true, hout]
      · refine hperm.trans ?_
        rw [← hsplit]
        exact (List.reverse_perm _).append_right _
    · have hsorted : (first :: second :: rest.take n).Pairwise (fun x y => c x y ≤ 0) := by
        have hch : (first :: second :: rest.take n).Chain' (fun a b => c a b ≤ 0) := by
          rw [List.chain'_cons]
          refine ⟨h.le_of_not_lt _ _ hdesc, ?_⟩
          simpa [hdesc] using hchain
        exact List.chain'_iff_pairwise.1 hch
      obtain ⟨out, hout, hperm, hos⟩ := binaryInsertionSort_spec h (rest.drop n) _ hsorted
        hPrun hPd
      have hn1 : countRun compareFn false second rest = .ok n := by simpa [hdesc] using hn
      refine ⟨out, ?_, ?_, hos⟩
      · simp only [arraySort, h.ok _ _ hsnd hf, hdesc, decide_False, hn1, hrun]
        simpa using hout
      · refine hperm.trans ?_
        rw [← hsplit]

theorem or_empty_of_stringOrFalsy (w : JSValue) (hw : w.stringOrFalsy = true) :
    w.or (.str "") = .str w.orEmpty := by
  cases w with
  | str s =>
    by_cases hs : s = ""
    · subst hs; decide
    · simp [JSValue.or, JSValue.orEmpty, JSValue.truthy, hs]
  | undefined => rfl
  | null => rfl
  | bool b =>
    cases b
    · rfl
    · simp [JSValue.stringOrFalsy, JSValue.truthy] at hw
  | num n =>
    have ht : (JSValue.num n).truthy = false := by
      simpa [JSValue.stringOrFalsy] using hw
    simp [JSValue.or, JSValue.orEmpty, ht]

theorem orEmpty_of_falsy (w : JSValue) (hw : w.truthy = false) : w.orEmpty = "" := by
  simp [JSValue.orEmpty, JSValue.or, hw]

theorem localeCompareCall_orEmpty (H : Host) (u v : JSValue)
    (hu : u.stringOrFalsy = true) (hv : v.stringOrFalsy = true) :
    localeCompareCall H (u.or (.str "")) (v.or (.str ""))
      = .ok (H.localeCompare u.orEmpty v.orEmpty) := by
  rw [or_empty_of_stringOrFalsy u hu, or_empty_of_stringOrFalsy v hv]
  rfl

theorem pair_sublist_of_pairwise {α : Type} (r : α → α → Prop) (l : List α)
    (hl : l.Pairwise r) (a b : α) (ha : a ∈ l) (hb : b ∈ l) (hab : a ≠ b)
    (hnr : ¬ r b a) : [a, b].Sublist l := by
  induction l with
  | nil => simp at ha
  | cons x xs ih =>
    rw [List.pairwise_cons] at hl
    rcases List.mem_cons.1 ha with rfl | ha1
    · rcases List.mem_cons.1 hb with rfl | hb1
      · exact absurd rfl hab
      · exact List.Sublist.cons₂ _ (List.singleton_sublist.2 hb1)
    · rcases List.mem_cons.1 hb with rfl | hb1
      · exact absurd (hl.1 a ha1) hnr
      · exact List.Sublist.cons _ (ih hl.2 ha1 hb1)

/-! ## Navigation (C1) -/

/-- Claim C1, refuted as stated: from the trip `t1` with the expense tab
active, going back and selecting `t1` again leaves the expense tab active,
not the schedule tab. -/
theorem reenter_trip_keeps_expense_tab :
    (App.run ⟨some [("id", .str "t1")], .expense, 0⟩
        [.back, .selectTrip [("id", .str "t1")]]).1
      = ⟨some [("id", .str "t1")], .expense, 0⟩
    ∧ (App.run ⟨some [("id", .str "t1")], .expense, 0⟩
        [.back, .selectTrip [("id", .str "t1")]]).1
      ≠ ⟨some [("id", .str "t1")], .schedule, 0⟩ := by
  decide

/-- Claim C1, as amended: back navigation only clears `currentTrip`, so
going back and selecting the same trip again restores the state that was
left, active tab included, without any request; the schedule tab is the
active one when a trip is selected in the initial state. -/
theorem reenter_trip_keeps_active_tab (t : Record) (tab : Tab) (n : Nat) :
    App.run ⟨some t, tab, n⟩ [.back, .selectTrip t] = (⟨some t, tab, n⟩, [])
    ∧ App.step App.init (.selectTrip t) = (⟨some t, .schedule, 0⟩, []) := by
  constructor <;> rfl

/-! ## The total of the expenses (C2) -/

/-- Claim C2, refuted as stated: the amounts `"100"`, `"abc"`, `"50"` give
the total NaN, not 150. -/
theorem total_non_numeric_amount_is_nan :
    ExpenseTab.total
        [[("amount", .str "100")], [("amount", .str "abc")], [("amount", .str "50")]]
      = .nan
    ∧ ExpenseTab.total
        [[("amount", .str "100")], [("amount", .str "abc")], [("amount", .str "50")]]
      ≠ .fin 150 := by
  decide!

/-- Claim C2, as amended: for every list of expenses the total is a number
(nothing throws), namely the sum, taken from 0 and from left to right, of
`Number(amount || 0)` over the expenses.  A falsy amount (absent, `null`,
empty, zero) counts as 0; an amount that `Number` turns into NaN, as the text
`"abc"`, makes the total NaN; when the amounts are integers whose absolute
values add up to less than `2 ^ 53`, the total is their sum.  The amounts
`"100"`, `""`, `"50"` give 150, the amounts `"100"`, `"12.5"` give 112.5. -/
theorem total_of_amounts (expenses : List Record) :
    ExpenseTab.total expenses
      = (expenses.map ExpenseTab.coercedAmount).foldl JSNumber.add (.fin 0)
    ∧ (∀ e : Record, (e.get "amount").truthy = false → ExpenseTab.coercedAmount e = .fin 0)
    ∧ ((∃ e ∈ expenses, ExpenseTab.coercedAmount e = .nan) → ExpenseTab.total expenses = .nan)
    ∧ (∀ zs : List Int,
        List.Forall₂ (fun (e : Record) (z : Int) => ExpenseTab.coercedAmount e = .fin (z : ℚ))
          expenses zs →
        (zs.map Int.natAbs).sum < 2 ^ 53 →
        ExpenseTab.total expenses = .fin ((zs.sum : Int) : ℚ))
    ∧ ExpenseTab.total
        [[("amount", .str "100")], [("amount", .str "")], [("amount", .str "50")]]
      = .fin 150
    ∧ ExpenseTab.total [[("amount", .str "100")], [("amount", .str "12.5")]]
      = .fin (225 / 2) := by
  refine ⟨?_, ?_, ?_, ?_, by decide!, by decide!⟩
  · rw [List.foldl_map]
    rfl
  · intro e he
    simp [ExpenseTab.coercedAmount, JSValue.or, he, JSValue.toNumber]
  · intro h
    exact foldl_add_of_nan_mem expenses _ h
  · intro zs hz hb
    have := foldl_add_of_integers expenses zs 0 hz (by simpa using hb)
    simpa [ExpenseTab.total, ExpenseTab.coercedAmount] using this

/-- The amended claim C2 at the amounts `100` (a number), absent and `"50"`:
the total is 150. -/
theorem total_of_amounts_witness :
    ExpenseTab.total [[("amount", .num (.fin 100))], [("item", .str "tea")],
        [("amount", .str "50")]]
      = .fin ((([100, 0, 50] : List Int).sum : Int) : ℚ) :=
  (total_of_amounts _).2.2.2.1 [100, 0, 50]
    (List.Forall₂.cons (by decide!) (List.Forall₂.cons (by decide!)
      (List.Forall₂.cons (by decide!) List.Forall₂.nil)))
    (by decide)

/-! ## Declined prompts (C3) -/

/-- Claim C3, refuted as stated: with the first prompt answered and the
second one declined, the handlers of the trip list, the schedule and the
expenses still send their write (with a `null` start date, a `null` time, the
default item name). -/
theorem declined_second_prompt_still_writes :
    TripSelection.handleCreate (some "Kyoto") none 0 true =
      [.request (.post "add" "trips" (.record
          [("title", .str "Kyoto"), ("startDate", .null), ("coverEmoji", .str "🇯🇵")])),
        .reload]
    ∧ ScheduleTab.handleAdd [("id", .str "t1")] (some "Temple") none true =
      [.request (.post "add" "events" (.record
          [("tripId", .str "t1"), ("title", .str "Temple"), ("time", .null),
            ("type", .str "spot"), ("location", .str "TBD")])),
        .onUpdate]
    ∧ ExpenseTab.handleAdd [("id", .str "t1")] (some "100") none true =
      [.request (.post "add" "expenses" (.record
          [("tripId", .str "t1"), ("amount", .str "100"), ("item", .str "未命名"),
            ("payer", .str "Me")])),
        .onUpdate] := by
  decide

/-- Claim C3, as amended: when the user declines the first prompt of a
handler (cancels it or enters nothing), the handler of the trip list, the
schedule, the expenses and the todos returns without any effect, so without
any request. -/
theorem declined_first_prompt_aborts (first : Option String)
    (h : first = none ∨ first = some "") :
    (∀ startDate pick completed,
        TripSelection.handleCreate first startDate pick completed = [])
    ∧ (∀ trip time completed, ScheduleTab.handleAdd trip first time completed = [])
    ∧ (∀ trip item completed, ExpenseTab.handleAdd trip first item completed = [])
    ∧ (∀ trip completed, TodoTab.handleAdd trip first completed = []) := by
  have hf : (promptValue first).truthy = false := by
    rcases h with h | h <;> subst h <;> rfl
  refine ⟨?_, ?_, ?_, ?_⟩
  · intro startDate pick completed
    simp [TripSelection.handleCreate, hf]
  · intro trip time completed
    simp [ScheduleTab.handleAdd, hf]
  · intro trip item completed
    simp [ExpenseTab.handleAdd, hf]
  · intro trip completed
    simp [TodoTab.handleAdd, hf]

/-- The amended claim C3 at a cancelled first prompt. -/
theorem declined_first_prompt_aborts_witness :
    (∀ startDate pick completed,
        TripSelection.handleCreate none startDate pick completed = [])
    ∧ (∀ trip time completed, ScheduleTab.handleAdd trip none time completed = [])
    ∧ (∀ trip item completed, ExpenseTab.handleAdd trip none item completed = [])
    ∧ (∀ trip completed, TodoTab.handleAdd trip none completed = []) :=
  declined_first_prompt_aborts none (Or.inl rfl)

/-! ## A synchronizer without scope (C4, C10) -/

/-- Claim C4: for a sheet other than `trips`, the first render of the hook
with a falsy `tripId` sends no request, holds the empty collection and
throws nothing. -/
theorem no_scope_no_read (H : Host) (sheetName : String) (tripId : JSValue)
    (refreshTrigger : Nat) (reply : Reply)
    (hsheet : sheetName ≠ "trips") (hscope : tripId.truthy = false) :
    (useSheetData H useSheetData.mount sheetName tripId refreshTrigger reply).2.requests = []
    ∧ (useSheetData H useSheetData.mount sheetName tripId refreshTrigger reply).1.state.data = []
    ∧ (useSheetData H useSheetData.mount sheetName tripId refreshTrigger reply).2.thrown
        = false := by
  simp [useSheetData, useSheetData.mount, load, hsheet, hscope]

/-- Claim C4 at the sheet `events` with an undefined `tripId`. -/
theorem no_scope_no_read_witness :
    (useSheetData sampleHost useSheetData.mount "events" .undefined 0
        (.body (.array [[("id", .str "e1")]]))).2.requests = []
    ∧ (useSheetData sampleHost useSheetData.mount "events" .undefined 0
        (.body (.array [[("id", .str "e1")]]))).1.state.data = []
    ∧ (useSheetData sampleHost useSheetData.mount "events" .undefined 0
        (.body (.array [[("id", .str "e1")]]))).2.thrown = false :=
  no_scope_no_read sampleHost "events" .undefined 0 _ (by decide) rfl

theorem useSheetData_no_scope_fixed (H : Host) (sheetName : String) (tripId : JSValue)
    (hsheet : sheetName ≠ "trips") (hscope : tripId.truthy = false)
    (h : HookInstance) (rs : List (Nat × Reply)) :
    (useSheetData.renders H sheetName tripId h rs).1.state = h.state
    ∧ (useSheetData.renders H sheetName tripId h rs).2 = [] := by
  induction rs generalizing h with
  | nil => simp [useSheetData.renders]
  | cons r rest ih =>
    obtain ⟨refreshTrigger, reply⟩ := r
    simp only [useSheetData.renders]
    by_cases hd : h.deps = some (sheetName, tripId, refreshTrigger)
    · have := ih h
      simp [useSheetData, hd, this]
    · have := ih ⟨h.state, some (sheetName, tripId, refreshTrigger)⟩
      simp [useSheetData, hd, load, hsheet, hscope, this]

/-- Claim C10: the hook is mounted with the empty collection and
`loading = true`; for a sheet other than `trips` and a falsy `tripId`, after
any number of renders (with the same `refreshTrigger`, and also when it
changes) the state is still the empty collection with `loading = true`, and
no request was sent. -/
theorem no_scope_loading_never_cleared (H : Host) (sheetName : String) (tripId : JSValue)
    (hsheet : sheetName ≠ "trips") (hscope : tripId.truthy = false)
    (refreshTrigger : Nat) (replies : List Reply) (rs : List (Nat × Reply)) :
    useSheetData.mount.state = ⟨[], true⟩
    ∧ (useSheetData.renders H sheetName tripId useSheetData.mount
        (replies.map fun reply => (refreshTrigger, reply))).1.state = ⟨[], true⟩
    ∧ (useSheetData.renders H sheetName tripId useSheetData.mount rs).1.state = ⟨[], true⟩
    ∧ (useSheetData.renders H sheetName tripId useSheetData.mount rs).2 = [] :=
  ⟨rfl, (useSheetData_no_scope_fixed H sheetName tripId hsheet hscope _ _).1,
    useSheetData_no_scope_fixed H sheetName tripId hsheet hscope _ _⟩

/-- Claim C10 at the sheet `todos` with a `null` trip id, rendered twice. -/
theorem no_scope_loading_never_cleared_witness :
    (useSheetData.renders sampleHost "todos" .null useSheetData.mount
        [(0, .failed), (0, .body (.array [[("id", .str "x")]]))]).1.state = ⟨[], true⟩ :=
  (no_scope_loading_never_cleared sampleHost "todos" .null (by decide) rfl 0
    [.failed, .body (.array [[("id", .str "x")]])] []).2.1

/-! ## The default order of a loaded collection (C5) -/

/-- Claim C5, at the input on which the code fails: when the read of the trip
list replies two records whose `createdAt` are the numbers 7 and 5, the
comparator throws a TypeError (a number has no `localeCompare`) on every
host; the run of `load` ends there, one request sent, and the hook still
holds the empty collection with `loading` set, not the two records in
descending order. -/
theorem load_numeric_createdAt_throws (H : Host) :
    (load H "trips" .null
        (.body (.array [[("createdAt", .num (.fin 7))], [("createdAt", .num (.fin 5))]]))
        useSheetData.mount.state).thrown = true
    ∧ (load H "trips" .null
        (.body (.array [[("createdAt", .num (.fin 7))], [("createdAt", .num (.fin 5))]]))
        useSheetData.mount.state).state = ⟨[], true⟩
    ∧ (load H "trips" .null
        (.body (.array [[("createdAt", .num (.fin 7))], [("createdAt", .num (.fin 5))]]))
        useSheetData.mount.state).requests = [.get "trips" none] := by
  have hc : createdAtDescending H [("createdAt", .num (.fin 5))] [("createdAt", .num (.fin 7))]
      = .error .typeError := by
    with_unfolding_all rfl
  simp [load, api.fetch, arraySort, hc, useSheetData.mount, JSValue.truthy]

theorem createdAtDescending_consistent (H : Host) (hH : LawfulCollation H.localeCompare) :
    ConsistentOn (createdAtDescending H)
      (fun a b => H.localeCompare (b.get "createdAt").orEmpty (a.get "createdAt").orEmpty)
      (fun r => (r.get "createdAt").stringOrFalsy = true) where
  ok := fun _ _ ha hb => localeCompareCall_orEmpty H _ _ hb ha
  flip := fun _ _ => hH.flip _ _
  trans := fun _ _ _ hab hbc => hH.trans _ _ _ hbc hab

/-- Where `load` does sort: for every array of records whose `createdAt` is
a string or falsy (absent, `null`, empty), read for the trip list or with a
trip id, `load` throws nothing, clears `loading`, and holds a permutation of
the array ordered by `createdAt` descending in the collation of the host, a
falsy `createdAt` counting as the empty string: a record whose `createdAt`
sorts after the empty string is held before every record without one. -/
theorem load_sorts_createdAt_descending (H : Host) (hH : LawfulCollation H.localeCompare)
    (sheetName : String) (tripId : JSValue) (s : SheetData) (items : List Record)
    (hguard : sheetName = "trips" ∨ tripId.truthy = true)
    (hkeys : ∀ r ∈ items, (r.get "createdAt").stringOrFalsy = true) :
    (load H sheetName tripId (.body (.array items)) s).thrown = false
    ∧ (load H sheetName tripId (.body (.array items)) s).state.loading = false
    ∧ (load H sheetName tripId (.body (.array items)) s).state.data.Perm items
    ∧ (load H sheetName tripId (.body (.array items)) s).state.data.Pairwise
        (fun a b => H.localeCompare (b.get "createdAt").orEmpty (a.get "createdAt").orEmpty ≤ 0)
    ∧ (∀ a ∈ items, ∀ b ∈ items, (a.get "createdAt").truthy = false →
        0 < H.localeCompare (b.get "createdAt").orEmpty "" →
        [b, a].Sublist (load H sheetName tripId (.body (.array items)) s).state.data) := by
  have hg : ¬ (sheetName ≠ "trips" ∧ tripId.truthy = false) := by
    rcases hguard with h | h <;> simp [h]
  obtain ⟨out, hout, hperm, hsorted⟩ :=
    arraySort_spec (createdAtDescending_consistent H hH) items hkeys
  have hload : load H sheetName tripId (.body (.array items)) s
      = ⟨⟨out, false⟩, [.get sheetName (if tripId.truthy then some tripId else none)],
          false⟩ := by
    simp only [load, if_neg hg, api.fetch, hout]
  rw [hload]
  refine ⟨rfl, rfl, hperm, hsorted, ?_⟩
  intro a ha b hb hfalsy hlt
  have hka : (a.get "createdAt").orEmpty = "" := orEmpty_of_falsy _ hfalsy
  have hne : b ≠ a := by
    intro hba
    rw [hba, hka, hH.self_eq_zero] at hlt
    exact lt_irrefl _ hlt
  refine pair_sublist_of_pairwise _ _ hsorted b a (hperm.mem_iff.2 hb) (hperm.mem_iff.2 ha)
    hne ?_
  show ¬ H.localeCompare (b.get "createdAt").orEmpty (a.get "createdAt").orEmpty ≤ 0
  rw [hka]
  omega

/-- The values `"2024-01-01"`, `"2024-03-01"`, `""` of `createdAt` are held
in the order `"2024-03-01"`, `"2024-01-01"`, `""`, on every host whose
collation puts `"2024-01-01"` before `"2024-03-01"`. -/
theorem load_createdAt_example (H : Host) (hH : LawfulCollation H.localeCompare)
    (h13 : H.localeCompare "2024-01-01" "2024-03-01" < 0) :
    (load H "trips" .null
        (.body (.array [[("createdAt", .str "2024-01-01")], [("createdAt", .str "2024-03-01")],
          [("createdAt", .str "")]]))
        useSheetData.mount.state).state
      = ⟨[[("createdAt", .str "2024-03-01")], [("createdAt", .str "2024-01-01")],
          [("createdAt", .str "")]], false⟩ := by
  have c21 : createdAtDescending H [("createdAt", .str "2024-03-01")]
      [("createdAt", .str "2024-01-01")]
      = .ok (H.localeCompare "2024-01-01" "2024-03-01") := rfl
  have c32 : createdAtDescending H [("createdAt", .str "")] [("createdAt", .str "2024-03-01")]
      = .ok (H.localeCompare "2024-03-01" "") := rfl
  have c31 : createdAtDescending H [("createdAt", .str "")] [("createdAt", .str "2024-01-01")]
      = .ok (H.localeCompare "2024-01-01" "") := rfl
  have e3 : 0 ≤ H.localeCompare "2024-03-01" "" := by
    have h1 := hH.emptyFirst "2024-03-01"
    have h2 := hH.flip "2024-03-01" ""
    omega
  have e1 : ¬ H.localeCompare "2024-01-01" "" < 0 := by
    have h1 := hH.emptyFirst "2024-01-01"
    have h2 := hH.flip "2024-01-01" ""
    omega
  simp [load, api.fetch, arraySort, countRun, binaryInsertionSort, insertionPoint, c21, c32,
    c31, h13, e3, e1, useSheetData.mount]

/-- The two statements above on the sample host, for the trip list. -/
theorem load_sorts_createdAt_descending_example :
    (load sampleHost "trips" .null
        (.body (.array [[("id", .str "a"), ("createdAt", .str "2024-01-01")],
          [("id", .str "b")], [("id", .str "c"), ("createdAt", .str "2024-03-01")]]))
        useSheetData.mount.state).state.data.Perm
      [[("id", .str "a"), ("createdAt", .str "2024-01-01")],
        [("id", .str "b")], [("id", .str "c"), ("createdAt", .str "2024-03-01")]]
    ∧ (load sampleHost "trips" .null
        (.body (.array [[("createdAt", .str "2024-01-01")], [("createdAt", .str "2024-03-01")],
          [("createdAt", .str "")]]))
        useSheetData.mount.state).state
      = ⟨[[("createdAt", .str "2024-03-01")], [("createdAt", .str "2024-01-01")],
          [("createdAt", .str "")]], false⟩ :=
  ⟨(load_sorts_createdAt_descending sampleHost sampleHost_lawful "trips" .null
      useSheetData.mount.state _ (Or.inl rfl) (by decide)).2.2.1,
    load_createdAt_example sampleHost sampleHost_lawful (by decide)⟩

/-! ## The order of the schedule (C6) -/

/-- Claim C6, at the input on which the code fails: when the hook holds two
events whose `time` are the numbers 1000 and 900, the comparator throws a
TypeError (a number has no `localeCompare`) on every host, so the render of
`ScheduleTab` throws and no sequence of events is rendered. -/
theorem sortedEvents_numeric_time_throws (H : Host) :
    ScheduleTab.sortedEvents H [[("time", .num (.fin 1000))], [("time", .num (.fin 900))]]
      = .error .typeError := by
  have hc : ScheduleTab.timeAscending H [("time", .num (.fin 900))]
      [("time", .num (.fin 1000))] = .error .typeError := by
    with_unfolding_all rfl
  simp [ScheduleTab.sortedEvents, arraySort, hc]

/-- With one time a string and the other a number, the comparator, called
as `compareFn(later, earlier)`, throws when the number comes second (it is
then the receiver of `localeCompare`), and does not when it comes first (it
is then the argument, which is converted to a string). -/
theorem sortedEvents_mixed_times (H : Host) :
    ScheduleTab.sortedEvents H [[("time", .str "09:00")], [("time", .num (.fin 900))]]
      = .error .typeError
    ∧ ∃ out, ScheduleTab.sortedEvents H
        [[("time", .num (.fin 900))], [("time", .str "09:00")]] = .ok out := by
  have hc1 : ScheduleTab.timeAscending H [("time", .num (.fin 900))]
      [("time", .str "09:00")] = .error .typeError := by
    with_unfolding_all rfl
  have hc2 : ScheduleTab.timeAscending H [("time", .str "09:00")]
      [("time", .num (.fin 900))]
      = .ok (H.localeCompare "09:00" (H.numberToString (.fin 900))) := by
    with_unfolding_all rfl
  constructor
  · simp [ScheduleTab.sortedEvents, arraySort, hc1]
  · simp only [ScheduleTab.sortedEvents, arraySort, hc2, countRun, List.take, List.drop,
      binaryInsertionSort]
    exact ⟨_, rfl⟩

theorem timeAscending_consistent (H : Host) (hH : LawfulCollation H.localeCompare) :
    ConsistentOn (ScheduleTab.timeAscending H)
      (fun a b => H.localeCompare (a.get "time").orEmpty (b.get "time").orEmpty)
      (fun e => (e.get "time").stringOrFalsy = true) where
  ok := fun _ _ ha hb => localeCompareCall_orEmpty H _ _ ha hb
  flip := fun _ _ => hH.flip _ _
  trans := fun _ _ _ hab hbc => hH.trans _ _ _ hab hbc

/-- Where `sortedEvents` does sort: for every list of events whose `time` is
a string or falsy (absent, `null`, empty), the rendered sequence is a
permutation of the held events ordered by `time` ascending in the collation
of the host, so an event with the time `"08:00"` is rendered before every
event with a greater time. -/
theorem sortedEvents_time_ascending (H : Host) (hH : LawfulCollation H.localeCompare)
    (events : List Record)
    (htime : ∀ e ∈ events, (e.get "time").stringOrFalsy = true) :
    ∃ out, ScheduleTab.sortedEvents H events = .ok out
      ∧ out.Perm events
      ∧ out.Pairwise
          (fun a b => H.localeCompare (a.get "time").orEmpty (b.get "time").orEmpty ≤ 0)
      ∧ (∀ a ∈ events, ∀ b ∈ events, a.get "time" = .str "08:00" →
          H.localeCompare "08:00" (b.get "time").orEmpty < 0 → [a, b].Sublist out) := by
  obtain ⟨out, hout, hperm, hsorted⟩ :=
    arraySort_spec (timeAscending_consistent H hH) events htime
  refine ⟨out, hout, hperm, hsorted, ?_⟩
  intro a ha b hb hka hlt
  have hka1 : (a.get "time").orEmpty = "08:00" := by rw [hka]; decide
  have hne : a ≠ b := by
    intro hab
    rw [← hab, hka1, hH.self_eq_zero] at hlt
    exact lt_irrefl _ hlt
  refine pair_sublist_of_pairwise _ _ hsorted a b (hperm.mem_iff.2 ha) (hperm.mem_iff.2 hb)
    hne ?_
  show ¬ H.localeCompare (b.get "time").orEmpty (a.get "time").orEmpty ≤ 0
  rw [hka1]
  have := (hH.flip "08:00" (b.get "time").orEmpty).1 hlt
  omega

/-- The times `"14:00"`, `"09:30"`, `"11:15"` are rendered in the order
`"09:30"`, `"11:15"`, `"14:00"`, on every host whose collation puts `"09:30"`
before `"11:15"` and `"11:15"` before `"14:00"`. -/
theorem sortedEvents_example (H : Host) (hH : LawfulCollation H.localeCompare)
    (h12 : H.localeCompare "09:30" "11:15" < 0) (h23 : H.localeCompare "11:15" "14:00" < 0) :
    ScheduleTab.sortedEvents H
        [[("time", .str "14:00")], [("time", .str "09:30")], [("time", .str "11:15")]]
      = .ok [[("time", .str "09:30")], [("time", .str "11:15")], [("time", .str "14:00")]] := by
  have c21 : ScheduleTab.timeAscending H [("time", .str "09:30")] [("time", .str "14:00")]
      = .ok (H.localeCompare "09:30" "14:00") := rfl
  have c32 : ScheduleTab.timeAscending H [("time", .str "11:15")] [("time", .str "09:30")]
      = .ok (H.localeCompare "11:15" "09:30") := rfl
  have c31 : ScheduleTab.timeAscending H [("time", .str "11:15")] [("time", .str "14:00")]
      = .ok (H.localeCompare "11:15" "14:00") := rfl
  have h13 : H.localeCompare "09:30" "14:00" < 0 := by
    by_contra hn
    have h1 := hH.flip "09:30" "14:00"
    have h2 := hH.trans "11:15" "14:00" "09:30" (le_of_lt h23) (by omega)
    have h3 := hH.flip "09:30" "11:15"
    omega
  have h21 : 0 ≤ H.localeCompare "11:15" "09:30" := by
    have := hH.flip "09:30" "11:15"
    omega
  have h21n : ¬ H.localeCompare "11:15" "09:30" < 0 := by omega
  simp [ScheduleTab.sortedEvents, arraySort, countRun, binaryInsertionSort, insertionPoint,
    c21, c32, c31, h13, h21, h21n, h23]

/-- The two statements above on the sample host: an event at `"08:00"` added
to events at `"14:00"` and `"09:30"`, one event having no time, is rendered
before the event at `"09:30"`. -/
theorem sortedEvents_time_ascending_example :
    (∃ out, ScheduleTab.sortedEvents sampleHost
        [[("title", .str "Museum"), ("time", .str "14:00")], [("title", .str "Walk")],
          [("title", .str "Market"), ("time", .str "09:30")],
          [("title", .str "Temple"), ("time", .str "08:00")]] = .ok out
      ∧ [[("title", .str "Temple"), ("time", .str "08:00")],
          [("title", .str "Market"), ("time", .str "09:30")]].Sublist out)
    ∧ ScheduleTab.sortedEvents sampleHost
        [[("time", .str "14:00")], [("time", .str "09:30")], [("time", .str "11:15")]]
      = .ok [[("time", .str "09:30")], [("time", .str "11:15")], [("time", .str "14:00")]] :=
  ⟨match sortedEvents_time_ascending sampleHost sampleHost_lawful
      [[("title", .str "Museum"), ("time", .str "14:00")], [("title", .str "Walk")],
        [("title", .str "Market"), ("time", .str "09:30")],
        [("title", .str "Temple"), ("time", .str "08:00")]] (by decide) with
    | ⟨out, hout, _, _, hbefore⟩ =>
      ⟨out, hout, hbefore _ (by decide) _ (by decide) (by decide) (by decide)⟩,
    sortedEvents_example sampleHost sampleHost_lawful (by decide) (by decide)⟩

/-! ## Completion of a todo (C7) -/

/-- Claim C7: a todo renders as completed exactly when its `done` field is
the boolean `true` or the string `"TRUE"`; the boolean `false`, the string
`"FALSE"` and a record without the field render as not completed. -/
theorem isDone_iff (t : Record) :
    (TodoTab.isDone t = true ↔
      (t.lookup "done" = some (.bool true) ∨ t.lookup "done" = some (.str "TRUE")))
    ∧ TodoTab.isDone [("done", .bool false)] = false
    ∧ TodoTab.isDone [("done", .str "FALSE")] = false
    ∧ TodoTab.isDone [("text", .str "pack")] = false := by
  refine ⟨?_, by decide, by decide, by decide⟩
  unfold TodoTab.isDone Record.get
  cases h : List.lookup "done" t with
  | none => simp [JSValue.strictEquals]
  | some v =>
    cases v with
    | undefined => simp [JSValue.strictEquals]
    | null => simp [JSValue.strictEquals]
    | bool b => cases b <;> simp [JSValue.strictEquals]
    | num n => simp [JSValue.strictEquals]
    | str s => simp [JSValue.strictEquals]

/-! ## Reads that fail or return no array (C8) -/

/-- Claim C8, refuted as stated: when the hook holds one event and a reload
for the trip `t1` gets an object instead of an array, the held collection is
still that event, not the empty collection. -/
theorem non_array_reply_keeps_held_data :
    (load sampleHost "events" (.str "t1") (.body (.object [("error", .str "no sheet")]))
        ⟨[[("id", .str "e1")]], false⟩).state
      = ⟨[[("id", .str "e1")]], false⟩
    ∧ (load sampleHost "events" (.str "t1") (.body (.object [("error", .str "no sheet")]))
        ⟨[[("id", .str "e1")]], false⟩).state.data ≠ [] := by
  decide

/-- Claim C8, as amended: for the trip list or with a trip id, a read that
fails in transport ends with `loading` cleared, the empty collection held
and nothing thrown; a reply that is not an array ends with `loading` cleared
and nothing thrown, the collection held before the load being kept (so it is
empty when it was empty). -/
theorem failed_or_non_array_read (H : Host) (sheetName : String) (tripId : JSValue)
    (s : SheetData) (hguard : sheetName = "trips" ∨ tripId.truthy = true) :
    (load H sheetName tripId .failed s).state = ⟨[], false⟩
    ∧ (load H sheetName tripId .failed s).thrown = false
    ∧ (∀ fields, (load H sheetName tripId (.body (.object fields)) s).state = ⟨s.data, false⟩
        ∧ (load H sheetName tripId (.body (.object fields)) s).thrown = false)
    ∧ (∀ v, (load H sheetName tripId (.body (.scalar v)) s).state = ⟨s.data, false⟩
        ∧ (load H sheetName tripId (.body (.scalar v)) s).thrown = false) := by
  have hg : ¬ (sheetName ≠ "trips" ∧ tripId.truthy = false) := by
    rcases hguard with h | h <;> simp [h]
  refine ⟨?_, ?_, ?_, ?_⟩
  · simp only [load, if_neg hg, api.fetch, arraySort]
  · simp only [load, if_neg hg, api.fetch, arraySort]
  · intro fields
    simp only [load, if_neg hg, api.fetch, and_self]
  · intro v
    simp only [load, if_neg hg, api.fetch, and_self]

/-- The amended claim C8 for the events of the trip `t1`, from a hook that
holds one event: a failed read empties the collection. -/
theorem failed_or_non_array_read_witness :
    (load sampleHost "events" (.str "t1") .failed ⟨[[("id", .str "e1")]], false⟩).state
      = ⟨[], false⟩ :=
  (failed_or_non_array_read sampleHost "events" (.str "t1") ⟨[[("id", .str "e1")]], false⟩
    (Or.inr rfl)).1

/-! ## The refresh counter (C9) -/

/-- Claim C9, refuted as stated: the creation of a trip, as the first
mutation, sends its write and leaves the counter at 0; and after an event
was added (counter 1), the creation of a trip reloads the page, which brings
the counter back to 0. -/
theorem create_trip_does_not_increment :
    App.run App.init [.createTrip (some "Kyoto") (some "2025-04-01") 0 true]
      = (⟨none, .schedule, 0⟩,
          [.post "add" "trips" (.record [("title", .str "Kyoto"),
            ("startDate", .str "2025-04-01"), ("coverEmoji", .str "🇯🇵")])])
    ∧ (App.run App.init [.selectTrip [("id", .str "t1")],
          .addEvent (some "Temple") (some "08:00") true, .back]).1.refreshCount = 1
    ∧ (App.run App.init [.selectTrip [("id", .str "t1")],
          .addEvent (some "Temple") (some "08:00") true, .back,
          .createTrip (some "Kyoto") (some "2025-04-01") 0 true]).1.refreshCount = 0 := by
  decide

theorem step_refreshCount (s : AppState) (a : App.Action) (ha : a.isCreateTrip = false) :
    (App.step s a).1.refreshCount
      = s.refreshCount + (if (App.step s a).2 ≠ [] ∧ a.completed = true then 1 else 0)
    ∧ (App.step s a).2.length ≤ 1 := by
  obtain ⟨trip, tab, n⟩ := s
  cases a with
  | createTrip title startDate pick completed => simp [App.Action.isCreateTrip] at ha
  | selectTrip t => cases trip <;> simp [App.step, App.setCurrentTrip]
  | back => cases trip <;> simp [App.step, App.setCurrentTrip]
  | selectTab t => cases trip <;> simp [App.step, App.setActiveTab]
  | addEvent title time completed =>
    cases trip <;> cases tab <;> cases completed <;>
      simp [App.step, App.effects, App.perform, ScheduleTab.handleAdd, api.post,
        App.Action.completed, App.triggerRefresh] <;>
      split <;> simp [App.perform, App.triggerRefresh]
  | deleteEvent id confirmed completed =>
    cases trip <;> cases tab <;> cases completed <;> cases confirmed <;>
      simp [App.step, App.effects, App.perform, ScheduleTab.handleDelete, api.post,
        App.Action.completed, App.triggerRefresh]
  | addExpense amount item completed =>
    cases trip <;> cases tab <;> cases completed <;>
      simp [App.step, App.effects, App.perform, ExpenseTab.handleAdd, api.post,
        App.Action.completed, App.triggerRefresh] <;>
      split <;> simp [App.perform, App.triggerRefresh]
  | addTodo text completed =>
    cases trip <;> cases tab <;> cases completed <;>
      simp [App.step, App.effects, App.perform, TodoTab.handleAdd, api.post,
        App.Action.completed, App.triggerRefresh] <;>
      split <;> simp [App.perform, App.triggerRefresh]
  | toggleTodo todo completed =>
    cases trip <;> cases tab <;> cases completed <;>
      simp [App.step, App.effects, App.perform, TodoTab.toggle, api.post,
        App.Action.completed, App.triggerRefresh]

theorem run_refreshCount_le (s : AppState) (as : List App.Action)
    (h : ∀ b ∈ as, b.isCreateTrip = false) :
    s.refreshCount ≤ (App.run s as).1.refreshCount := by
  induction as generalizing s with
  | nil => simp [App.run]
  | cons a rest ih =>
    have h1 := (step_refreshCount s a (h a (List.mem_cons_self a rest))).1
    have h2 := ih (App.step s a).1 fun b hb => h b (List.mem_cons_of_mem a hb)
    simp only [App.run]
    omega

/-- Claim C9, as amended: the counter starts at zero.  A step other than
the creation of a trip adds one to it exactly when the step sent a write
whose request completed, and leaves it unchanged otherwise; such a step sends
at most one request; along a run without creation of a trip the counter
never decreases.  The creation of a trip does not call `triggerRefresh`: once
its write completed it reloads the page, which starts the application
afresh. -/
theorem refreshCount_monotone (s : AppState) (a : App.Action) (rest : List App.Action)
    (h : ∀ b ∈ a :: rest, b.isCreateTrip = false) :
    App.init.refreshCount = 0
    ∧ (App.step s a).1.refreshCount
        = s.refreshCount + (if (App.step s a).2 ≠ [] ∧ a.completed = true then 1 else 0)
    ∧ (App.step s a).2.length ≤ 1
    ∧ s.refreshCount ≤ (App.run s (a :: rest)).1.refreshCount
    ∧ (∀ (title : String) startDate pick, title ≠ "" →
        (App.step ⟨none, s.activeTab, s.refreshCount⟩
          (.createTrip (some title) startDate pick true)).1 = App.init) := by
  have ha := step_refreshCount s a (h a (List.mem_cons_self a rest))
  refine ⟨rfl, ha.1, ha.2, run_refreshCount_le s (a :: rest) h, ?_⟩
  intro title startDate pick ht
  simp [App.step, App.effects, TripSelection.handleCreate, promptValue, JSValue.truthy, ht,
    api.post, App.perform]

/-- The amended claim C9 on the run of the scenario: a trip is selected, an
event is added (the first mutation, which takes the counter from 0 to 1),
the user goes back. -/
theorem refreshCount_monotone_witness :
    (App.step ⟨some [("id", .str "T1")], .schedule, 0⟩
        (.addEvent (some "Temple") (some "08:00") true)).1.refreshCount
      = 0 + (if (App.step ⟨some [("id", .str "T1")], .schedule, 0⟩
          (.addEvent (some "Temple") (some "08:00") true)).2 ≠ [] ∧ true = true then 1 else 0)
    ∧ (App.step ⟨some [("id", .str "T1")], .schedule, 0⟩
        (.addEvent (some "Temple") (some "08:00") true)).1.refreshCount = 1 :=
  ⟨(refreshCount_monotone ⟨some [("id", .str "T1")], .schedule, 0⟩
      (.addEvent (some "Temple") (some "08:00") true) [.back] (by decide)).2.1, by decide⟩
